import Mathlib

/-!
Shallow embedding of the Gotodo task tracker (`src/main.go`) in Lean 4.

Modelling conventions:
* Go `time.Time` instants and `time.Duration` values are modelled as `Int`
  (nanoseconds); the Go zero time (`t.IsZero()`) is modelled as the value `0`,
  and `time.Since(t)` at current instant `now` is `now - t`.
* Go strings are modelled as rune sequences (`List Char`), matching the
  `[]rune` conversions the renderer performs; the display width of a string
  (`lipgloss.Width`) is modelled as the sum of per-rune widths for an
  arbitrary per-rune width function, matching the accounting the
  truncation loop in `renderTasksView` performs.
* `uuid.New()` is an external source of fresh identifiers; the identifier a
  creation uses is passed in as an explicit argument.
* The viewport collaborator (`bubbles/viewport`) is external; the session
  model keeps its `YOffset` and `Height` fields, and `SetYOffset` is the
  plain field assignment the `ensureCursorVisible` contract describes.
-/

namespace Gotodo

/-- `TaskStatus` from `main.go` (`Pending`, `InProgress`, `Paused`,
`Completed`, in declaration order). -/
inductive TaskStatus where
  | Pending
  | InProgress
  | Paused
  | Completed
deriving DecidableEq, Repr

/-- The `Task` record from `main.go`; timestamps and durations are `Int`
nanoseconds, the description is a rune sequence. -/
structure Task where
  id : Nat
  description : List Char
  status : TaskStatus
  timeSpent : Int
  lastStartedAt : Int
  createdAt : Int
deriving DecidableEq, Repr

/-- Default task used only to total the `taskAt` lookup. -/
def defaultTask : Task :=
  { id := 0, description := [], status := .Pending, timeSpent := 0,
    lastStartedAt := 0, createdAt := 0 }

/-- Indexing into the store, totalised with `defaultTask`. -/
def taskAt (l : List Task) (i : Nat) : Task :=
  l.getD i defaultTask

/-- Pausing a task with accrual, as all three accrual sites in `Update`
write it: if `LastStartedAt` is non-zero, `TimeSpent += time.Since(LastStartedAt)`;
the status becomes `Paused` either way and `LastStartedAt` is left as is. -/
def pauseWithAccrual (t : Task) (now : Int) : Task :=
  { t with status := .Paused,
           timeSpent := if t.lastStartedAt ≠ 0
                        then t.timeSpent + (now - t.lastStartedAt)
                        else t.timeSpent }

/-- The exclusivity loop inside the `Pending, Paused` branch of the toggle
handler: walking the store from index `k`, every task that is `InProgress`
at an index other than `cursor` is paused with accrual. -/
def pauseOthersFrom (cursor : Nat) (now : Int) : Nat → List Task → List Task
  | _, [] => []
  | k, t :: ts =>
      (if t.status = .InProgress ∧ k ≠ cursor then pauseWithAccrual t now else t)
        :: pauseOthersFrom cursor now (k + 1) ts

/-- The toggle handler (`key.Matches(msg, m.keyMap.Toggle)` branch of
`Update`): guarded by `len(m.tasks) > 0 && m.cursor < len(m.tasks)`;
`Pending`/`Paused` pause every other `InProgress` task then start the cursor
task at `now`; `InProgress` pauses the cursor task with accrual; `Completed`
falls through the `switch` untouched. -/
def toggle (tasks : List Task) (cursor : Nat) (now : Int) : List Task :=
  if h : cursor < tasks.length then
    match (tasks.get ⟨cursor, h⟩).status with
    | .Pending | .Paused =>
        (pauseOthersFrom cursor now 0 tasks).set cursor
          { tasks.get ⟨cursor, h⟩ with status := .InProgress, lastStartedAt := now }
    | .InProgress =>
        tasks.set cursor (pauseWithAccrual (tasks.get ⟨cursor, h⟩) now)
    | .Completed => tasks
  else tasks

/-- The complete handler (`key.Matches(msg, m.keyMap.Complete)` branch of
`Update`): if the cursor task is `InProgress` with non-zero `LastStartedAt`
its elapsed time is accrued first; the status is then set to `Completed`. -/
def complete (tasks : List Task) (cursor : Nat) (now : Int) : List Task :=
  if h : cursor < tasks.length then
    tasks.set cursor
      { (if (tasks.get ⟨cursor, h⟩).status = .InProgress ∧
            (tasks.get ⟨cursor, h⟩).lastStartedAt ≠ 0
         then { tasks.get ⟨cursor, h⟩ with
                timeSpent := (tasks.get ⟨cursor, h⟩).timeSpent +
                  (now - (tasks.get ⟨cursor, h⟩).lastStartedAt) }
         else tasks.get ⟨cursor, h⟩) with
        status := .Completed }
  else tasks

/-- The session-end accrual loop in the quit handler of `Update`: every task
still `InProgress` is accrued (when `LastStartedAt` is non-zero) and forced
to `Paused`, before `saveTasksToFile` runs. -/
def quitAccrue (tasks : List Task) (now : Int) : List Task :=
  tasks.map (fun t => if t.status = .InProgress then pauseWithAccrual t now else t)

/-- The renderer's effective elapsed time (`timeDisplay` in
`renderTasksView`): `TimeSpent`, plus `time.Since(LastStartedAt)` when the
task is `InProgress` with a non-zero `LastStartedAt`. -/
def timeDisplay (t : Task) (now : Int) : Int :=
  if t.status = .InProgress then
    (if t.lastStartedAt ≠ 0 then t.timeSpent + (now - t.lastStartedAt) else t.timeSpent)
  else t.timeSpent

/-- Number of tasks in the store whose status is `InProgress`. -/
def countInProgress (tasks : List Task) : Nat :=
  tasks.countP (fun t => t.status = .InProgress)

/-- A sequence of toggle actions, each given by the cursor position it acts
on and the instant at which it fires. -/
def toggleSeq (tasks : List Task) (acts : List (Nat × Int)) : List Task :=
  acts.foldl (fun ts a => toggle ts a.1 a.2) tasks

/-- `ensureCursorVisible` from `main.go` as a function on the scroll offset:
empty list returns unchanged; a cursor above the window scrolls up to it; a
cursor at or below the window bottom scrolls down so the cursor is the last
visible row; otherwise the offset is unchanged.  `SetYOffset` of the
external viewport collaborator is the assignment of the new offset. -/
def ensureCursorVisible (cursor offset height count : Nat) : Nat :=
  if count = 0 then offset
  else if cursor < offset then cursor
  else if cursor ≥ offset + height then cursor - height + 1
  else offset

/-- The description-budget floor in `renderTasksView`
(`if descAvailableWidth < 5 { descAvailableWidth = 5 }`), applied to the
possibly-negative width arithmetic result. -/
def flooredDescWidth (raw : Int) : Nat :=
  if raw < 5 then 5 else raw.toNat

/-- Display width of a rune sequence: the sum of the per-rune widths, for a
per-rune width function `w` (the external `lipgloss.Width` collaborator). -/
def runeWidthSum (w : Char → Nat) (s : List Char) : Nat :=
  (s.map w).sum

/-- The truncation loop in `renderTasksView`: runes are appended while the
cumulative width stays within `limit` (`descAvailableWidth` minus the width
of `"..."`); the loop breaks at the first rune that would overflow. -/
def truncateRunes (w : Char → Nat) (limit : Nat) : List Char → Nat → List Char
  | [], _ => []
  | r :: rs, currentW =>
      if currentW + w r > limit then []
      else r :: truncateRunes w limit rs (currentW + w r)

/-- The description rendering in `renderTasksView`: if the display width of
the description exceeds the (already floored) budget, truncate and append
`"..."`; otherwise render it whole. -/
def renderDesc (w : Char → Nat) (budget : Nat) (desc : List Char) : List Char :=
  if runeWidthSum w desc > budget then
    truncateRunes w (budget - runeWidthSum w ['.', '.', '.']) desc 0 ++ ['.', '.', '.']
  else desc

/-- Go's `unicode.IsSpace` on the runes `strings.TrimSpace` trims: ASCII
whitespace, NEL, NBSP and the Unicode space separators. -/
def goIsSpace (c : Char) : Bool :=
  c = ' ' || c = '\t' || c = '\n' || c.toNat = 11 || c.toNat = 12 || c = '\r' ||
    c.toNat = 0x85 || c.toNat = 0xA0 || c.toNat = 0x1680 ||
    (0x2000 ≤ c.toNat && c.toNat ≤ 0x200A) ||
    c.toNat = 0x2028 || c.toNat = 0x2029 || c.toNat = 0x202F ||
    c.toNat = 0x205F || c.toNat = 0x3000

/-- `strings.TrimSpace`: drop leading and trailing whitespace runes. -/
def trimSpace (s : List Char) : List Char :=
  ((s.dropWhile goIsSpace).reverse.dropWhile goIsSpace).reverse

/-- The error values the session can hold (`m.err`), abstracted from the Go
`error` values: the raw `os.ErrNotExist`-style error returned by a read of a
missing file, and the wrapped read/unmarshal/save failures. -/
inductive GoErr where
  | notExist
  | readFail
  | unmarshalFail
  | saveFail
deriving DecidableEq, Repr

/-- `os.IsNotExist` on the errors the session stores: true exactly for the
raw missing-file error (the wrapped errors do not satisfy it). -/
def isNotExist : GoErr → Bool
  | .notExist => true
  | _ => false

/-- The outcome of reading the tasks file, abstracting `ioutil.ReadFile`
plus `json.Unmarshal`: the file may be absent, unreadable, present but
undecodable, or present with a decoded task list. -/
inductive FileReadResult where
  | absent
  | unreadable
  | malformed
  | decoded (tasks : List Task)
deriving DecidableEq, Repr

/-- `loadTasksFromFile`: a missing file yields the empty store together with
the raw not-exist error; other read failures and decode failures yield a nil
(empty) store with a wrapped error; success yields the decoded tasks. -/
def loadTasksFromFile : FileReadResult → List Task × Option GoErr
  | .absent => ([], some .notExist)
  | .unreadable => ([], some .readFail)
  | .malformed => ([], some .unmarshalFail)
  | .decoded tasks => (tasks, none)

/-- `appMode` from `main.go`. -/
inductive AppMode where
  | modeViewTasks
  | modeAddTask
deriving DecidableEq, Repr

/-- The session state of the `model` struct that the core logic touches:
the store, the cursor, the viewport scroll offset and height, the mode, the
stored error, the input buffer and the display toggles. -/
structure Model where
  tasks : List Task
  cursor : Nat
  yOffset : Nat
  vpHeight : Nat
  mode : AppMode
  err : Option GoErr
  inputValue : List Char
  showLineNumbers : Bool
  useJalaliCalendar : Bool
deriving DecidableEq, Repr

/-- `initialModel`: load the tasks, store the load result and its error in
the session state, and start in Adding mode exactly when the store is empty
and there was no error (`len(m.tasks) == 0 && loadErr == nil`).  The
viewport starts as `viewport.New(80, 20)`. -/
def initialModel (r : FileReadResult) : Model :=
  let p := loadTasksFromFile r
  { tasks := p.1, cursor := 0, yOffset := 0, vpHeight := 20,
    mode := if p.1.length = 0 ∧ p.2 = none then .modeAddTask else .modeViewTasks,
    err := p.2, inputValue := [], showLineNumbers := false,
    useJalaliCalendar := false }

/-- Whether `View` renders an error band: it does so exactly when `m.err` is
non-nil and not an `os.IsNotExist` error
(`if m.err != nil && !os.IsNotExist(m.err)`). -/
def errorDisplayed (m : Model) : Bool :=
  match m.err with
  | some e => !(isNotExist e)
  | none => false

/-- The Enter handler of Adding mode: if the input is non-empty after
`strings.TrimSpace`, a fresh task (untrimmed description, status `Pending`,
created at `now`, identifier from the external `uuid.New()`) is prepended,
the input is cleared and the cursor reset to 0; otherwise nothing changes. -/
def submitAdd (m : Model) (newId : Nat) (now : Int) : Model :=
  if trimSpace m.inputValue ≠ [] then
    { m with tasks := { id := newId, description := m.inputValue,
                        status := .Pending, timeSpent := 0, lastStartedAt := 0,
                        createdAt := now } :: m.tasks,
             inputValue := [], cursor := 0 }
  else m

/-- The cursor clamp at the end of `Update`: for a non-empty store an
out-of-range cursor is pulled back to the last index (the negative branch is
vacuous for a natural-number cursor); for an empty store the cursor is 0. -/
def clampCursor (m : Model) : Model :=
  if m.tasks.length > 0 then
    if m.cursor ≥ m.tasks.length then { m with cursor := m.tasks.length - 1 } else m
  else { m with cursor := 0 }

/-- The Up handler of `Update`: for a non-empty store with the cursor above
index 0, decrement the cursor and re-run `ensureCursorVisible`; followed by
the end-of-`Update` cursor clamp. -/
def navUp (m : Model) : Model :=
  clampCursor <|
    if m.tasks.length > 0 ∧ m.cursor > 0 then
      let c := m.cursor - 1
      { m with cursor := c,
               yOffset := ensureCursorVisible c m.yOffset m.vpHeight m.tasks.length }
    else m

/-- The Down handler of `Update`: for a non-empty store with the cursor
before the last index, increment the cursor and re-run
`ensureCursorVisible`; followed by the end-of-`Update` cursor clamp. -/
def navDown (m : Model) : Model :=
  clampCursor <|
    if m.tasks.length > 0 ∧ m.cursor < m.tasks.length - 1 then
      let c := m.cursor + 1
      { m with cursor := c,
               yOffset := ensureCursorVisible c m.yOffset m.vpHeight m.tasks.length }
    else m

/-! ### Helper lemmas -/

theorem pauseWithAccrual_status (t : Task) (now : Int) :
    (pauseWithAccrual t now).status = .Paused := rfl

theorem pauseOthersFrom_length (cursor : Nat) (now : Int) (k : Nat) (ts : List Task) :
    (pauseOthersFrom cursor now k ts).length = ts.length := by
  induction ts generalizing k with
  | nil => rfl
  | cons t ts ih => simp [pauseOthersFrom, ih]

theorem toggle_length (tasks : List Task) (cursor : Nat) (now : Int) :
    (toggle tasks cursor now).length = tasks.length := by
  unfold toggle
  split
  · split <;> simp [pauseOthersFrom_length]
  · rfl

theorem taskAt_pauseOthersFrom (cursor : Nat) (now : Int) (k : Nat) (ts : List Task)
    (i : Nat) (h : i < ts.length) :
    taskAt (pauseOthersFrom cursor now k ts) i =
      if (taskAt ts i).status = .InProgress ∧ k + i ≠ cursor
      then pauseWithAccrual (taskAt ts i) now
      else taskAt ts i := by
  induction ts generalizing k i with
  | nil => simp at h
  | cons t ts ih =>
    cases i with
    | zero => simp [pauseOthersFrom, taskAt]
    | succ n =>
      have hn : n < ts.length := by simpa using h
      have := ih (k + 1) n hn
      have harith : k + 1 + n = k + (n + 1) := by omega
      simpa [pauseOthersFrom, taskAt, List.getD_cons_succ, harith] using this

theorem taskAt_eq_getElem (tasks : List Task) (i : Nat) (h : i < tasks.length) :
    taskAt tasks i = tasks[i] :=
  List.getD_eq_getElem tasks defaultTask h

theorem taskAt_set_self (l : List Task) (i : Nat) (x : Task) (h : i < l.length) :
    taskAt (l.set i x) i = x := by
  have h' : i < (l.set i x).length := by simpa using h
  rw [taskAt_eq_getElem _ _ h']
  exact List.getElem_set_self h'

theorem taskAt_set_ne (l : List Task) (i j : Nat) (x : Task) (hij : i ≠ j)
    (h : j < l.length) :
    taskAt (l.set i x) j = taskAt l j := by
  have h' : j < (l.set i x).length := by simpa using h
  rw [taskAt_eq_getElem _ _ h', taskAt_eq_getElem _ _ h]
  exact List.getElem_set_ne hij h'

theorem set_taskAt_self (l : List Task) (i : Nat) (h : i < l.length) :
    l.set i (taskAt l i) = l := by
  induction l generalizing i with
  | nil => rfl
  | cons t ts ih =>
    cases i with
    | zero => simp [taskAt]
    | succ n =>
      have hn : n < ts.length := by simpa using h
      show t :: ts.set n (taskAt (t :: ts) (n + 1)) = t :: ts
      rw [show taskAt (t :: ts) (n + 1) = taskAt ts n from List.getD_cons_succ, ih n hn]

theorem taskAt_quitAccrue (tasks : List Task) (now : Int) (i : Nat)
    (h : i < tasks.length) :
    taskAt (quitAccrue tasks now) i =
      if (taskAt tasks i).status = .InProgress
      then pauseWithAccrual (taskAt tasks i) now
      else taskAt tasks i := by
  have h' : i < (quitAccrue tasks now).length := by simpa [quitAccrue] using h
  rw [taskAt_eq_getElem _ _ h', taskAt_eq_getElem _ _ h]
  simp [quitAccrue, List.getElem_map]

theorem countP_set_le_of_not (p : Task → Bool) (l : List Task) (i : Nat) (x : Task)
    (hx : p x = false) : (l.set i x).countP p ≤ l.countP p := by
  induction l generalizing i with
  | nil => simp
  | cons t ts ih =>
    cases i with
    | zero => simp [List.countP_cons, hx]
    | succ n =>
      show ((t :: ts.set n x).countP p) ≤ _
      simp only [List.countP_cons]
      have := ih n
      omega

theorem countP_set_le_one_of_zero (p : Task → Bool) (l : List Task) (i : Nat) (x : Task)
    (hl : l.countP p = 0) : (l.set i x).countP p ≤ 1 := by
  induction l generalizing i with
  | nil => simp
  | cons t ts ih =>
    simp only [List.countP_cons] at hl
    cases i with
    | zero =>
      show ((x :: ts).countP p) ≤ 1
      simp only [List.countP_cons]
      split <;> omega
    | succ n =>
      show ((t :: ts.set n x).countP p) ≤ 1
      simp only [List.countP_cons]
      have := ih n (by omega)
      omega

theorem countInProgress_pauseOthersFrom (cursor : Nat) (now : Int) (k : Nat)
    (ts : List Task)
    (hc : k ≤ cursor → cursor - k < ts.length →
      (taskAt ts (cursor - k)).status ≠ .InProgress) :
    countInProgress (pauseOthersFrom cursor now k ts) = 0 := by
  induction ts generalizing k with
  | nil => rfl
  | cons t ts ih =>
    show countInProgress
      ((if t.status = .InProgress ∧ k ≠ cursor then pauseWithAccrual t now else t)
        :: pauseOthersFrom cursor now (k + 1) ts) = 0
    have htail : countInProgress (pauseOthersFrom cursor now (k + 1) ts) = 0 := by
      refine ih (k + 1) (fun h1 h2 => ?_)
      have hk : k ≤ cursor := by omega
      have harith : cursor - k = (cursor - (k + 1)) + 1 := by omega
      have hlen : cursor - k < (t :: ts).length := by simp; omega
      have := hc hk hlen
      rwa [harith, show taskAt (t :: ts) ((cursor - (k + 1)) + 1) =
        taskAt ts (cursor - (k + 1)) from List.getD_cons_succ] at this
    unfold countInProgress at htail ⊢
    rw [List.countP_cons, htail]
    by_cases hip : t.status = .InProgress
    · by_cases hk : k = cursor
      · exfalso
        have h1 : k ≤ cursor := le_of_eq hk
        have h2 : cursor - k < (t :: ts).length := by simp [hk.symm]
        have := hc h1 h2
        rw [show cursor - k = 0 from by omega] at this
        exact this (by simpa [taskAt] using hip)
      · simp [hip, hk, pauseWithAccrual]
    · simp [hip]

theorem countInProgress_toggle_le (tasks : List Task) (cursor : Nat) (now : Int)
    (h : countInProgress tasks ≤ 1) :
    countInProgress (toggle tasks cursor now) ≤ 1 := by
  unfold toggle
  split
  case isTrue hlt =>
    rcases hstatus : (tasks.get ⟨cursor, hlt⟩).status with _ | _ | _ | _
    · simp only [hstatus]
      refine countP_set_le_one_of_zero _ _ _ _ ?_
      refine countInProgress_pauseOthersFrom cursor now 0 tasks (fun _ h2 => ?_)
      rw [Nat.sub_zero] at h2 ⊢
      rw [taskAt_eq_getElem _ _ h2, ← List.get_eq_getElem tasks ⟨cursor, h2⟩, hstatus]
      simp
    · simp only [hstatus]
      calc countInProgress (tasks.set cursor
              (pauseWithAccrual (tasks.get ⟨cursor, hlt⟩) now))
          ≤ countInProgress tasks := by
            refine countP_set_le_of_not _ _ _ _ ?_
            simp [pauseWithAccrual]
        _ ≤ 1 := h
    · simp only [hstatus]
      refine countP_set_le_one_of_zero _ _ _ _ ?_
      refine countInProgress_pauseOthersFrom cursor now 0 tasks (fun _ h2 => ?_)
      rw [Nat.sub_zero] at h2 ⊢
      rw [taskAt_eq_getElem _ _ h2, ← List.get_eq_getElem tasks ⟨cursor, h2⟩, hstatus]
      simp
    · exact h
  case isFalse => exact h

/-- C1: starting from a store with at most one `InProgress` task, every
sequence of toggle actions (arbitrary cursor positions and instants) leaves
at most one task `InProgress` at every observation point, because a toggle
that moves a task into `InProgress` first pauses, with accrual, every other
`InProgress` task within that same toggle. -/
theorem toggleSeq_at_most_one_inProgress (tasks : List Task)
    (h : countInProgress tasks ≤ 1) (acts : List (Nat × Int)) :
    countInProgress (toggleSeq tasks acts) ≤ 1 ∧
    (∀ c now i, c < tasks.length → i < tasks.length → i ≠ c →
      ((taskAt tasks c).status = .Pending ∨ (taskAt tasks c).status = .Paused) →
      taskAt (toggle tasks c now) i =
        if (taskAt tasks i).status = .InProgress
        then pauseWithAccrual (taskAt tasks i) now
        else taskAt tasks i) := by
  constructor
  · induction acts generalizing tasks with
    | nil => exact h
    | cons a acts ih =>
      simp only [toggleSeq, List.foldl_cons]
      exact ih _ (countInProgress_toggle_le _ _ _ h)
  · intro c now i hc hi hne hst
    have hlen : i < (pauseOthersFrom c now 0 tasks).length := by
      rw [pauseOthersFrom_length]; exact hi
    rw [taskAt_eq_getElem _ _ hc, ← List.get_eq_getElem tasks ⟨c, hc⟩] at hst
    unfold toggle
    rw [dif_pos hc]
    rcases hst with hst | hst <;>
      simp only [hst] <;>
      rw [taskAt_set_ne _ _ _ _ (fun hci => hne hci.symm) (by rwa [pauseOthersFrom_length]),
        taskAt_pauseOthersFrom _ _ _ _ _ hi] <;>
      simp [hne]

/-- Sample task: running since instant 10 (`LastStartedAt = 10`). -/
def taskA : Task :=
  { id := 1, description := ['a'], status := .InProgress, timeSpent := 0,
    lastStartedAt := 10, createdAt := 0 }

/-- Sample task: pending, never started. -/
def taskB : Task :=
  { id := 2, description := ['b'], status := .Pending, timeSpent := 0,
    lastStartedAt := 0, createdAt := 0 }

/-- Witness for C1: two tasks with A `InProgress`; toggling B at instant 25
(then A at 30) never yields two `InProgress` tasks, and within the first
toggle A is paused with accrual. -/
theorem toggleSeq_at_most_one_inProgress_witness :
    countInProgress [taskA, taskB] ≤ 1 ∧
    countInProgress (toggleSeq [taskA, taskB] [(1, 25), (0, 30)]) ≤ 1 ∧
    taskAt (toggle [taskA, taskB] 1 25) 0 = pauseWithAccrual taskA 25 := by
  refine ⟨by decide, (toggleSeq_at_most_one_inProgress _ (by decide) _).1, ?_⟩
  have h2 := (toggleSeq_at_most_one_inProgress [taskA, taskB] (by decide) []).2
    1 25 0 (by decide) (by decide) (by decide) (Or.inl (by decide))
  rw [h2]
  decide

/-- C2 counterexample: a task that is `InProgress` with a zero (unset)
`LastStartedAt` is toggled at `now = 5`; its `time_spent` stays 0, while the
claim's formula `time_spent + (now − last_started_at)` demands 5. -/
theorem toggle_zero_start_counterexample :
    (taskAt [{ taskA with lastStartedAt := 0 }] 0).status = .InProgress ∧
    (taskAt (toggle [{ taskA with lastStartedAt := 0 }] 0 5) 0).timeSpent = 0 ∧
    (taskAt [{ taskA with lastStartedAt := 0 }] 0).timeSpent +
      (5 - (taskAt [{ taskA with lastStartedAt := 0 }] 0).lastStartedAt) = 5 := by
  decide

/-- C2 (amended): toggling a task that is `InProgress` at the cursor, with a
non-zero `last_started_at`, pauses it and adds exactly `now − last_started_at`
to its `time_spent`, leaving the rest of the store unchanged. -/
theorem toggle_inProgress_pauses_accrues (tasks : List Task) (c : Nat) (now : Int)
    (h : c < tasks.length) (h1 : (taskAt tasks c).status = .InProgress)
    (h2 : (taskAt tasks c).lastStartedAt ≠ 0) :
    toggle tasks c now = tasks.set c
      { taskAt tasks c with
        status := .Paused,
        timeSpent := (taskAt tasks c).timeSpent +
          (now - (taskAt tasks c).lastStartedAt) } := by
  rw [taskAt_eq_getElem _ _ h, ← List.get_eq_getElem tasks ⟨c, h⟩] at h1 h2 ⊢
  unfold toggle
  rw [dif_pos h]
  simp only [h1]
  congr 1
  rw [List.get_eq_getElem] at h2
  simp [pauseWithAccrual, h2]

/-- Witness for C2 (Scenario B): a pending task toggled to `InProgress` at
t0 = 100 ns and toggled again 5 s later ends `Paused` with
`time_spent = 5000000000` ns. -/
theorem toggle_inProgress_pauses_accrues_witness :
    toggle (toggle [taskB] 0 100) 0 5000000100 =
      [{ taskB with
         status := .Paused,
         timeSpent := 5000000000,
         lastStartedAt := 100 }] := by
  refine (toggle_inProgress_pauses_accrues (toggle [taskB] 0 100) 0 5000000100
    (by decide) (by decide) (by decide)).trans ?_
  decide

/-- C3: the session-end accrual before persisting: every `InProgress` task
(with a non-zero start instant) gets `now − last_started_at` added to its
`time_spent` and becomes `Paused`; other tasks are untouched; afterwards no
task in the store is `InProgress`. -/
theorem quit_accrues_and_pauses_all (tasks : List Task) (now : Int) :
    (quitAccrue tasks now).length = tasks.length ∧
    ∀ i, i < tasks.length →
      ((taskAt tasks i).status = .InProgress → (taskAt tasks i).lastStartedAt ≠ 0 →
        taskAt (quitAccrue tasks now) i =
          { taskAt tasks i with
            status := .Paused,
            timeSpent := (taskAt tasks i).timeSpent +
              (now - (taskAt tasks i).lastStartedAt) }) ∧
      ((taskAt tasks i).status ≠ .InProgress →
        taskAt (quitAccrue tasks now) i = taskAt tasks i) ∧
      (taskAt (quitAccrue tasks now) i).status ≠ .InProgress := by
  refine ⟨by simp [quitAccrue], fun i hi => ⟨?_, ?_, ?_⟩⟩
  · intro hip hnz
    rw [taskAt_quitAccrue _ _ _ hi]
    simp [hip, pauseWithAccrual, hnz]
  · intro hnp
    rw [taskAt_quitAccrue _ _ _ hi]
    simp [hnp]
  · rw [taskAt_quitAccrue _ _ _ hi]
    by_cases hip : (taskAt tasks i).status = .InProgress
    · simp [hip, pauseWithAccrual]
    · simp [hip]

/-- Witness for C3: quitting at instant 25 with A running since 10 pauses A
with 15 ns accrued, leaves pending B alone, and leaves nothing running. -/
theorem quit_accrues_and_pauses_all_witness :
    taskAt (quitAccrue [taskA, taskB] 25) 0 =
      { taskA with status := .Paused, timeSpent := 15 } ∧
    taskAt (quitAccrue [taskA, taskB] 25) 1 = taskB ∧
    (taskAt (quitAccrue [taskA, taskB] 25) 0).status ≠ .InProgress := by
  have hl := quit_accrues_and_pauses_all [taskA, taskB] 25
  have h0 := hl.2 0 (by decide)
  have h1 := hl.2 1 (by decide)
  refine ⟨?_, h1.2.1 (by decide), h0.2.2⟩
  rw [h0.1 (by decide) (by decide)]
  decide

/-- C4 counterexample: with an empty list (`count = 0`), a cursor above the
offset (`cursor = 0 < offset = 1`) leaves the offset at 1, while the claim's
first clause demands the returned offset be the cursor, 0: the code's
empty-list early return is outside the claimed contract. -/
theorem ensureCursorVisible_empty_counterexample :
    (0 : Nat) < 1 ∧ ensureCursorVisible 0 1 1 0 = 1 ∧
      ensureCursorVisible 0 1 1 0 ≠ 0 := by
  decide

/-- C4 (amended): for a non-empty list, `ensureCursorVisible` scrolls up to
the cursor when it is above the window, scrolls so the cursor is the last
visible row when it is at or below the window bottom, and otherwise leaves
the offset unchanged. -/
theorem ensureCursorVisible_contract (cursor offset height count : Nat)
    (hcount : 0 < count) :
    (cursor < offset → ensureCursorVisible cursor offset height count = cursor) ∧
    (offset + height ≤ cursor →
      ensureCursorVisible cursor offset height count = cursor - height + 1) ∧
    (offset ≤ cursor → cursor < offset + height →
      ensureCursorVisible cursor offset height count = offset) := by
  have hc0 : ¬ count = 0 := by omega
  unfold ensureCursorVisible
  rw [if_neg hc0]
  refine ⟨fun h1 => by rw [if_pos h1], fun h2 => ?_, fun h3 h4 => ?_⟩
  · rw [if_neg (by omega), if_pos (by omega)]
  · rw [if_neg (by omega), if_neg (by omega)]

/-- Witness for C4 (Scenario E): viewport height 5 over 20 tasks, window at
offset 12, cursor moved to index 17: the offset becomes 17 − 5 + 1 = 13. -/
theorem ensureCursorVisible_contract_witness :
    (0 : Nat) < 20 ∧ ensureCursorVisible 17 12 5 20 = 13 := by
  refine ⟨by decide, ?_⟩
  rw [(ensureCursorVisible_contract 17 12 5 20 (by decide)).2.1 (by decide)]

/-- Display width distributes over concatenation of rune sequences. -/
theorem runeWidthSum_append (w : Char → Nat) (a b : List Char) :
    runeWidthSum w (a ++ b) = runeWidthSum w a + runeWidthSum w b := by
  simp [runeWidthSum]

/-- The floored description budget is always at least 5 columns. -/
theorem flooredDescWidth_ge (raw : Int) : 5 ≤ flooredDescWidth raw := by
  unfold flooredDescWidth
  split <;> omega

/-- The truncation loop never exceeds its width limit: starting from an
in-budget cumulative width, the width of what it keeps stays in budget. -/
theorem truncateRunes_width_le (w : Char → Nat) (limit : Nat) (rs : List Char)
    (cw : Nat) (h : cw ≤ limit) :
    runeWidthSum w (truncateRunes w limit rs cw) + cw ≤ limit := by
  induction rs generalizing cw with
  | nil => simpa [truncateRunes, runeWidthSum]
  | cons r rs ih =>
    unfold truncateRunes
    split
    · simpa [runeWidthSum]
    · rename_i hfit
      have hle : cw + w r ≤ limit := by omega
      have := ih (cw + w r) hle
      simp only [runeWidthSum, List.map_cons, List.sum_cons] at this ⊢
      omega

/-- The truncation loop keeps a whole-rune prefix of its input. -/
theorem truncateRunes_eq_take (w : Char → Nat) (limit : Nat) (rs : List Char)
    (cw : Nat) : ∃ k, truncateRunes w limit rs cw = rs.take k := by
  induction rs generalizing cw with
  | nil => exact ⟨0, rfl⟩
  | cons r rs ih =>
    unfold truncateRunes
    split
    · exact ⟨0, rfl⟩
    · obtain ⟨k, hk⟩ := ih (cw + w r)
      exact ⟨k + 1, by rw [hk, List.take_succ_cons]⟩

/-- C5: for any per-rune width function rendering `.` one column wide and
any description whose display width exceeds the (floored-at-5) budget, the
rendered description has display width at most the budget and is a
whole-rune prefix of the description followed by `...`. -/
theorem renderDesc_truncation_bounds (w : Char → Nat) (raw : Int)
    (desc : List Char) (hdot : w '.' = 1)
    (hover : flooredDescWidth raw < runeWidthSum w desc) :
    runeWidthSum w (renderDesc w (flooredDescWidth raw) desc) ≤
      flooredDescWidth raw ∧
    ∃ k, renderDesc w (flooredDescWidth raw) desc =
      desc.take k ++ ['.', '.', '.'] := by
  have hb5 : 5 ≤ flooredDescWidth raw := flooredDescWidth_ge raw
  have hdots : runeWidthSum w ['.', '.', '.'] = 3 := by
    simp [runeWidthSum, hdot]
  unfold renderDesc
  rw [if_pos hover, hdots]
  constructor
  · rw [runeWidthSum_append, hdots]
    have ht := truncateRunes_width_le w (flooredDescWidth raw - 3) desc 0
      (by omega)
    omega
  · obtain ⟨k, hk⟩ := truncateRunes_eq_take w (flooredDescWidth raw - 3) desc 0
    exact ⟨k, by rw [hk]⟩

/-- Witness for C5: every rune one column wide, raw budget 5, an
eight-column description: the rendering is the two-rune prefix plus `...`,
five columns wide. -/
theorem renderDesc_truncation_bounds_witness :
    (fun _ => 1 : Char → Nat) '.' = 1 ∧
    flooredDescWidth 5 <
      runeWidthSum (fun _ => 1) ['a', 'b', 'c', 'd', 'e', 'f', 'g', 'h'] ∧
    runeWidthSum (fun _ => 1)
      (renderDesc (fun _ => 1) (flooredDescWidth 5)
        ['a', 'b', 'c', 'd', 'e', 'f', 'g', 'h']) ≤ flooredDescWidth 5 ∧
    renderDesc (fun _ => 1) (flooredDescWidth 5)
        ['a', 'b', 'c', 'd', 'e', 'f', 'g', 'h'] =
      ['a', 'b'] ++ ['.', '.', '.'] := by
  have h := renderDesc_truncation_bounds (fun _ => 1) 5
    ['a', 'b', 'c', 'd', 'e', 'f', 'g', 'h'] rfl (by decide)
  exact ⟨rfl, by decide, h.1, by decide⟩

/-- C6 counterexample: with the tasks file absent, `initialModel` stores the
not-exist load error in the session state (`m.err = loadErr`), so an error
is recorded, contrary to the claim. -/
theorem initialModel_absent_err_counterexample :
    (initialModel .absent).err = some .notExist ∧
      (initialModel .absent).err ≠ none := by
  decide

/-- C6 (amended): with the tasks file absent, session start yields an empty
usable store; the not-exist error is recorded in session state, but it
counts as `os.IsNotExist` and is therefore never displayed: no error message
is shown to the user. -/
theorem initialModel_absent_empty_no_display :
    (initialModel .absent).tasks = [] ∧
    (initialModel .absent).err = some .notExist ∧
    isNotExist .notExist = true ∧
    errorDisplayed (initialModel .absent) = false := by
  decide

/-- C7: wherever elapsed time of an `InProgress` task is accrued or shown —
toggle to `Paused`, complete, session-end accrual, and the renderer's
effective-elapsed-time — a zero (unset) `last_started_at` contributes no
time: `time_spent` is unchanged and the displayed time equals `time_spent`. -/
theorem zero_lastStartedAt_no_accrual (tasks : List Task) (c : Nat) (now : Int)
    (h : c < tasks.length) (h1 : (taskAt tasks c).status = .InProgress)
    (h2 : (taskAt tasks c).lastStartedAt = 0) :
    (taskAt (toggle tasks c now) c).timeSpent = (taskAt tasks c).timeSpent ∧
    (taskAt (toggle tasks c now) c).status = .Paused ∧
    (taskAt (complete tasks c now) c).timeSpent = (taskAt tasks c).timeSpent ∧
    (taskAt (complete tasks c now) c).status = .Completed ∧
    (taskAt (quitAccrue tasks now) c).timeSpent = (taskAt tasks c).timeSpent ∧
    timeDisplay (taskAt tasks c) now = (taskAt tasks c).timeSpent := by
  have hta : taskAt tasks c = tasks[c] := taskAt_eq_getElem _ _ h
  have h1' : tasks[c].status = .InProgress := by rwa [hta] at h1
  have h2' : tasks[c].lastStartedAt = 0 := by rwa [hta] at h2
  have hq : taskAt (quitAccrue tasks now) c = pauseWithAccrual (taskAt tasks c) now := by
    rw [taskAt_quitAccrue _ _ _ h, if_pos h1]
  have htog : toggle tasks c now =
      tasks.set c (pauseWithAccrual (tasks.get ⟨c, h⟩) now) := by
    unfold toggle
    rw [dif_pos h]
    simp only [List.get_eq_getElem, h1']
  have hcomp : complete tasks c now =
      tasks.set c { tasks.get ⟨c, h⟩ with status := .Completed } := by
    unfold complete
    rw [dif_pos h]
    rw [if_neg]
    rintro ⟨-, hnz⟩
    rw [List.get_eq_getElem] at hnz
    exact hnz h2'
  refine ⟨?_, ?_, ?_, ?_, ?_, ?_⟩
  · rw [htog, taskAt_set_self _ _ _ h, hta]
    simp [pauseWithAccrual, h2']
  · rw [htog, taskAt_set_self _ _ _ h]
    rfl
  · rw [hcomp, taskAt_set_self _ _ _ h, hta]
    simp
  · rw [hcomp, taskAt_set_self _ _ _ h]
  · rw [hq]
    simp [pauseWithAccrual, hta, h2']
  · simp [timeDisplay, h1, h2]

/-- Corrupted task as Scenario D crafts it: `InProgress` persisted with an
unset start instant. -/
def corruptTask : Task :=
  { id := 3, description := ['c'], status := .InProgress, timeSpent := 7,
    lastStartedAt := 0, createdAt := 0 }

/-- Witness for C7: on the corrupted task, toggle, complete, quit accrual
and the renderer all leave/show `time_spent = 7`, with no interval added. -/
theorem zero_lastStartedAt_no_accrual_witness :
    (taskAt (toggle [corruptTask] 0 99) 0).timeSpent = 7 ∧
    (taskAt (toggle [corruptTask] 0 99) 0).status = .Paused ∧
    (taskAt (complete [corruptTask] 0 99) 0).timeSpent = 7 ∧
    (taskAt (quitAccrue [corruptTask] 99) 0).timeSpent = 7 ∧
    timeDisplay (taskAt [corruptTask] 0) 99 = 7 := by
  have h := zero_lastStartedAt_no_accrual [corruptTask] 0 99
    (by decide) (by decide) (by decide)
  exact ⟨h.1.trans (by decide), h.2.1, h.2.2.1.trans (by decide),
    h.2.2.2.2.1.trans (by decide), h.2.2.2.2.2.trans (by decide)⟩

/-- C8: submitting the add input with a whitespace-only (post-trim) value
changes nothing — no task, no error, the whole session state untouched;
a non-empty value prepends a fresh `Pending` task carrying the input text
and resets the cursor to 0, leaving the stored error as it was. -/
theorem submitAdd_validates_and_prepends (m : Model) (newId : Nat) (now : Int) :
    (trimSpace m.inputValue = [] → submitAdd m newId now = m) ∧
    (trimSpace m.inputValue ≠ [] →
      (submitAdd m newId now).tasks =
        { id := newId, description := m.inputValue, status := .Pending,
          timeSpent := 0, lastStartedAt := 0, createdAt := now } :: m.tasks ∧
      (submitAdd m newId now).cursor = 0 ∧
      (submitAdd m newId now).err = m.err ∧
      (submitAdd m newId now).mode = m.mode) := by
  unfold submitAdd
  constructor
  · intro h
    rw [if_neg (by simp [h])]
  · intro h
    rw [if_pos h]
    exact ⟨rfl, rfl, rfl, rfl⟩

/-- The session state at an empty store in Adding mode, with "Buy milk"
typed into the input. -/
def emptyAddModel : Model :=
  { tasks := [], cursor := 0, yOffset := 0, vpHeight := 20,
    mode := .modeAddTask, err := none,
    inputValue := ['B', 'u', 'y', ' ', 'm', 'i', 'l', 'k'],
    showLineNumbers := false, useJalaliCalendar := false }

/-- Witness for C8 (Scenario A): adding "Buy milk" to an empty store yields
one `Pending` task and cursor 0; a whitespace-only input changes nothing. -/
theorem submitAdd_validates_and_prepends_witness :
    (submitAdd emptyAddModel 7 42).tasks.length = 1 ∧
    (taskAt (submitAdd emptyAddModel 7 42).tasks 0).status = .Pending ∧
    (submitAdd emptyAddModel 7 42).cursor = 0 ∧
    submitAdd { emptyAddModel with inputValue := [' ', ' '] } 7 42 =
      { emptyAddModel with inputValue := [' ', ' '] } := by
  have h := (submitAdd_validates_and_prepends emptyAddModel 7 42).2 (by decide)
  have h0 := (submitAdd_validates_and_prepends
    { emptyAddModel with inputValue := [' ', ' '] } 7 42).1 (by decide)
  refine ⟨?_, ?_, h.2.1, h0⟩
  · rw [h.1]
    decide
  · rw [h.1]
    decide

/-- C9: with a non-empty store, navigating up at cursor 0 and navigating
down at the last index are complete no-ops on the session state: the whole
model, cursor and scroll offset included, is unchanged. -/
theorem nav_boundary_noop (m : Model) (hne : m.tasks ≠ []) :
    (m.cursor = 0 → navUp m = m) ∧
    (m.cursor = m.tasks.length - 1 → navDown m = m) := by
  have hlen : 0 < m.tasks.length := List.length_pos.mpr hne
  constructor
  · intro h0
    unfold navUp
    rw [if_neg (by omega : ¬ (m.tasks.length > 0 ∧ m.cursor > 0))]
    unfold clampCursor
    rw [if_pos hlen, if_neg (by omega : ¬ m.cursor ≥ m.tasks.length)]
  · intro hl
    unfold navDown
    rw [if_neg (by omega : ¬ (m.tasks.length > 0 ∧ m.cursor < m.tasks.length - 1))]
    unfold clampCursor
    rw [if_pos hlen, if_neg (by omega : ¬ m.cursor ≥ m.tasks.length)]

/-- A one-task viewing session: its cursor 0 is simultaneously the first and
the last index. -/
def oneTaskModel : Model :=
  { tasks := [taskB], cursor := 0, yOffset := 0, vpHeight := 5,
    mode := .modeViewTasks, err := none, inputValue := [],
    showLineNumbers := false, useJalaliCalendar := false }

/-- Witness for C9: on a one-task store, up at cursor 0 and down at the last
index both leave the session state identical. -/
theorem nav_boundary_noop_witness :
    navUp oneTaskModel = oneTaskModel ∧ navDown oneTaskModel = oneTaskModel := by
  have h := nav_boundary_noop oneTaskModel (by decide)
  exact ⟨h.1 (by decide), h.2 (by decide)⟩

/-- Updating the status of a task to the status it already has is the
identity. -/
theorem status_update_self (t : Task) (s : TaskStatus) (h : t.status = s) :
    { t with status := s } = t := by
  cases t
  cases h
  rfl

/-- Writing back the task already at an index leaves the store unchanged. -/
theorem set_get_self (l : List Task) (i : Nat) (h : i < l.length) :
    l.set i (l.get ⟨i, h⟩) = l := by
  rw [List.get_eq_getElem, ← taskAt_eq_getElem _ _ h]
  exact set_taskAt_self l i h

/-- C10: toggle and complete are no-ops outside their domain: on an empty
store, and with a cursor past the end, they return the store unchanged; with
a `Completed` task at the cursor, toggle returns the store unchanged (every
field of every task, length and order included) and complete leaves the
store unchanged as well (status stays `Completed`, nothing accrued). -/
theorem toggle_complete_out_of_domain (tasks : List Task) (c : Nat) (now : Int) :
    (tasks = [] → toggle tasks c now = tasks ∧ complete tasks c now = tasks) ∧
    (tasks.length ≤ c → toggle tasks c now = tasks ∧ complete tasks c now = tasks) ∧
    (c < tasks.length → (taskAt tasks c).status = .Completed →
      toggle tasks c now = tasks ∧ complete tasks c now = tasks) := by
  refine ⟨?_, ?_, ?_⟩
  · rintro rfl
    constructor <;> simp [toggle, complete]
  · intro hle
    constructor
    · unfold toggle
      rw [dif_neg (by omega)]
    · unfold complete
      rw [dif_neg (by omega)]
  · intro h hdone
    have hdone' : tasks[c].status = .Completed := by
      rwa [taskAt_eq_getElem _ _ h] at hdone
    have hdoneg : (tasks.get ⟨c, h⟩).status = .Completed := by
      rwa [List.get_eq_getElem]
    constructor
    · unfold toggle
      rw [dif_pos h]
      simp only [hdoneg]
    · unfold complete
      rw [dif_pos h]
      rw [if_neg (by simp [hdone'])]
      rw [status_update_self _ _ hdoneg, set_get_self]

/-- A completed sample task. -/
def doneTask : Task :=
  { id := 4, description := ['d'], status := .Completed, timeSpent := 9,
    lastStartedAt := 0, createdAt := 0 }

/-- Witness for C10: the empty store, an out-of-range cursor and a completed
task at the cursor are all left untouched by toggle and complete. -/
theorem toggle_complete_out_of_domain_witness :
    toggle ([] : List Task) 0 5 = [] ∧ complete ([] : List Task) 0 5 = [] ∧
    toggle [doneTask] 5 9 = [doneTask] ∧
    toggle [doneTask] 0 9 = [doneTask] ∧ complete [doneTask] 0 9 = [doneTask] := by
  have h := toggle_complete_out_of_domain ([] : List Task) 0 5
  have h2 := toggle_complete_out_of_domain [doneTask] 0 9
  have h3 := toggle_complete_out_of_domain [doneTask] 5 9
  exact ⟨(h.1 rfl).1, (h.1 rfl).2, (h3.2.1 (by decide)).1,
    (h2.2.2 (by decide) (by decide)).1, (h2.2.2 (by decide) (by decide)).2⟩

end Gotodo
